import Mathlib

/-!
Verification of the progressive lot-size recurrence and the loss-support
simulation of `app.py` (martingale-style money-management calculator).

Money amounts and lot sizes are modelled as rationals (ℚ).  The two numeric
procedures are embedded directly from the source:

* the module-level progression loop (lines 36-63): `computeTrade`,
  `progGo` / `simulateProgression`, with the running accumulator
  `cumulative_loss` captured by the sequence `cumLoss`;
* `calculate_loss_support_with_last_lot` (lines 92-138): `lossLoop` /
  `lossSupportForPlan`, where the source's `for n in range(1, 100)` with
  `break` becomes structural recursion on the number of remaining
  iterations (99 of them, since `range(1, 100)` is 1..99).
-/

/-- Strategy parameters collected from the sidebar controls
(`commission_per_lot`, `profit_per_0_01_lot`, `loss_per_0_01_lot`,
`target_win_per_trade`). -/
structure StrategyParams where
  commissionPerLot : ℚ
  profitPer0_01Lot : ℚ
  lossPer0_01Lot : ℚ
  targetWinPerTrade : ℚ

/-- Net dollar win per lot: `profit_per_0_01_lot * 100 - commission_per_lot`
(the denominator of the lot-size formula, lines 41-42). -/
def netWinRate (p : StrategyParams) : ℚ :=
  p.profitPer0_01Lot * 100 - p.commissionPerLot

/-- Net dollar loss per lot: `loss_per_0_01_lot * 100 + commission_per_lot`
(line 46). -/
def netLossRate (p : StrategyParams) : ℚ :=
  p.lossPer0_01Lot * 100 + p.commissionPerLot

/-- One row of the progressive lot-size table (loop body, lines 39-63). -/
structure TradeRecord where
  tradeIndex : ℕ
  lotSize : ℚ
  winAmount : ℚ
  loseAmount : ℚ
  cumulativeLossIfLosing : ℚ

/-- Body of the progression loop for trade `n` given the cumulative loss so
far: `L_n`, `win_amount`, `lose_amount`, `hypothetical_cumulative_loss`
(lines 41-49). -/
def computeTrade (n : ℕ) (cumulativeLossBefore : ℚ) (p : StrategyParams) :
    TradeRecord :=
  let L := ((n : ℚ) * p.targetWinPerTrade - cumulativeLossBefore) / netWinRate p
  { tradeIndex := n
    lotSize := L
    winAmount := netWinRate p * L
    loseAmount := -(netLossRate p) * L
    cumulativeLossIfLosing := cumulativeLossBefore + -(netLossRate p) * L }

/-- Progression loop from trade index `n`, with `rem` iterations left and
current cumulative loss `C` (lines 39-63, threading `cumulative_loss`). -/
def progGo (p : StrategyParams) : ℕ → ℕ → ℚ → List TradeRecord
  | _, 0, _ => []
  | n, rem+1, C =>
    let tr := computeTrade n C p
    tr :: progGo p (n+1) rem tr.cumulativeLossIfLosing

/-- Module-level progression table: `for n in range(1, num_trades + 1)`
starting from `cumulative_loss = 0.0` (lines 36-63). -/
def simulateProgression (numTrades : ℕ) (p : StrategyParams) :
    List TradeRecord :=
  progGo p 1 numTrades 0

/-- Value of the accumulator `cumulative_loss` after `n` all-losing trades
(`cumLoss p 0 = 0` is the initial value at line 36 / line 96). -/
def cumLoss (p : StrategyParams) : ℕ → ℚ
  | 0 => 0
  | n+1 => (computeTrade (n+1) (cumLoss p n) p).cumulativeLossIfLosing

/-- Lot size `L_n` of trade `n` along the all-losing path. -/
def lotSizeAt (p : StrategyParams) (n : ℕ) : ℚ :=
  (computeTrade n (cumLoss p (n - 1)) p).lotSize

/-- One account plan row: `{"Account Size": ..., "Max Overall Loss": ...}`
(lines 82-89). -/
structure AccountPlan where
  accountSize : ℚ
  maxOverallLoss : ℚ

/-- Inner simulation loop of `calculate_loss_support_with_last_lot`
(lines 102-117): trade index `n`, `rem` iterations remaining, accumulator
`C` (`cumulative_loss`) and `lastLot` (`last_trade_lot_size`).  Returns the
final `(losses_supported, last_trade_lot_size)`; `losses_supported` is `0`
unless the breach branch (line 114-116) assigned `n - 1` and broke out. -/
def lossLoop (p : StrategyParams) (maxLoss : ℚ) :
    ℕ → ℕ → ℚ → ℚ → ℤ × ℚ
  | _, 0, _, lastLot => (0, lastLot)
  | n, rem+1, C, lastLot =>
    let L := ((n : ℚ) * p.targetWinPerTrade - C) /
      (p.profitPer0_01Lot * 100 - p.commissionPerLot)
    let lose := -(p.lossPer0_01Lot * 100 + p.commissionPerLot) * L
    let C2 := C + lose
    if C2 ≤ -maxLoss then ((n : ℤ) - 1, lastLot)
    else lossLoop p maxLoss (n+1) rem C2 L

/-- Result row of the adjusted loss-support table (lines 119-136). -/
structure LossSupportResult where
  lossesSupported : ℤ
  adjustedLossesSupported : ℤ
  lastTradeLotSize : ℚ
  eightPercentOfAccount : ℚ
  fivePercentOfAccount : ℚ
  thirteenPercentOfAccount : ℚ

/-- Per-plan body of `calculate_loss_support_with_last_lot` (lines 95-136):
run the loss loop over `range(1, 100)` (iterations 1..99) from
`cumulative_loss = 0.0`, `last_trade_lot_size = 0.0`, then apply the safety
adjustment `max(losses_supported - 1, 0)` and the fixed percentages. -/
def lossSupportForPlan (p : StrategyParams) (plan : AccountPlan) :
    LossSupportResult :=
  let s := lossLoop p plan.maxOverallLoss 1 99 0 0
  { lossesSupported := s.1
    adjustedLossesSupported := max (s.1 - 1) 0
    lastTradeLotSize := s.2
    eightPercentOfAccount := 8/100 * plan.accountSize
    fivePercentOfAccount := 5/100 * plan.accountSize
    thirteenPercentOfAccount := 13/100 * plan.accountSize }

/-- Whole-table function `calculate_loss_support_with_last_lot` (line 92):
one result per plan, in order. -/
def calculate_loss_support_with_last_lot (p : StrategyParams)
    (plans : List AccountPlan) : List LossSupportResult :=
  plans.map (lossSupportForPlan p)

/-- Default slider values: commission 1.5, profit 1.2, loss 1.0, target 1.0
(lines 10-17). -/
def defaultParams : StrategyParams :=
  { commissionPerLot := 3/2
    profitPer0_01Lot := 6/5
    lossPer0_01Lot := 1
    targetWinPerTrade := 1 }

/-- Fixed account-plan list (lines 82-89). -/
def defaultPlans : List AccountPlan :=
  [⟨6000, 600⟩, ⟨15000, 1500⟩, ⟨25000, 2500⟩,
   ⟨50000, 5000⟩, ⟨100000, 10000⟩, ⟨200000, 20000⟩]

/-- Trade index `n` is the first one at which the all-losing cumulative loss
reaches `-M` (the breach condition of line 114). -/
def FirstBreachAt (p : StrategyParams) (M : ℚ) (n : ℕ) : Prop :=
  1 ≤ n ∧ cumLoss p n ≤ -M ∧ ∀ m, m < n → 1 ≤ m → -M < cumLoss p m

/-- Unfolding lemma for one iteration of the loss loop, phrased through
`computeTrade`: the inline formulas of lines 104-108 are exactly the
`lotSize` / `cumulativeLossIfLosing` fields of the shared primitive. -/
lemma lossLoop_succ (p : StrategyParams) (M : ℚ) (n rem : ℕ) (C lastLot : ℚ) :
    lossLoop p M n (rem+1) C lastLot =
      if (computeTrade n C p).cumulativeLossIfLosing ≤ -M
      then ((n : ℤ) - 1, lastLot)
      else lossLoop p M (n+1) rem (computeTrade n C p).cumulativeLossIfLosing
        (computeTrade n C p).lotSize := rfl

/-- Stepping the accumulator: feeding `cumLoss p (n-1)` into trade `n`
produces `cumLoss p n`. -/
lemma cumLoss_step (p : StrategyParams) (n : ℕ) (hn : 1 ≤ n) :
    (computeTrade n (cumLoss p (n-1)) p).cumulativeLossIfLosing = cumLoss p n := by
  obtain ⟨m, rfl⟩ : ∃ m, n = m + 1 := ⟨n - 1, (Nat.succ_pred_eq_of_pos hn).symm⟩
  simp [cumLoss]

/-- Loss loop run from trade `n` with accumulator `cumLoss p (n-1)`: if the
first breach inside the remaining window happens at trade `k`, the loop
stops there with `losses_supported = k - 1` and `last_trade_lot_size` equal
to the lot of trade `k-1` (or the incoming value when `k = n`). -/
lemma lossLoop_firstBreach (p : StrategyParams) (M : ℚ) :
    ∀ rem n C lastLot (k : ℕ), C = cumLoss p (n-1) → 1 ≤ n → n ≤ k →
      k < n + rem → cumLoss p k ≤ -M →
      (∀ m, m < k → n ≤ m → -M < cumLoss p m) →
      lossLoop p M n rem C lastLot =
        ((k : ℤ) - 1, if k = n then lastLot else lotSizeAt p (k-1)) := by
  intro rem
  induction rem with
  | zero =>
    intro n C lastLot k _ _ hnk hlt _ _
    omega
  | succ rem ih =>
    intro n C lastLot k hC h1 hnk hlt hbr hmin
    subst hC
    rw [lossLoop_succ, cumLoss_step p n h1]
    by_cases hb : cumLoss p n ≤ -M
    · have hkn : k = n := by
        by_contra hne
        have hlt2 : n < k := lt_of_le_of_ne hnk (Ne.symm hne)
        exact absurd hb (not_le_of_lt (hmin n hlt2 (le_refl n)))
      subst hkn
      rw [if_pos hb, if_pos rfl]
    · rw [if_neg hb]
      have hkn : n < k := by
        rcases lt_or_eq_of_le hnk with h | h
        · exact h
        · exact absurd (h ▸ hbr) hb
      have hlot : (computeTrade n (cumLoss p (n-1)) p).lotSize = lotSizeAt p n := rfl
      rw [hlot]
      have hstep := ih (n+1) (cumLoss p n) (lotSizeAt p n) k
        (by simp) (by omega) hkn (by omega) hbr
        (fun m hm hm2 => hmin m hm (by omega))
      rw [hstep, if_neg (by omega : ¬ k = n)]
      by_cases hk1 : k = n + 1
      · subst hk1
        rw [if_pos rfl]
        have : (n + 1) - 1 = n := by omega
        rw [this]
      · rw [if_neg hk1]

/-- Loss loop run from trade `n` with accumulator `cumLoss p (n-1)`: if no
trade in the remaining window breaches, `losses_supported` keeps its
initial value `0` and `last_trade_lot_size` ends as the lot of the final
simulated trade. -/
lemma lossLoop_noBreach (p : StrategyParams) (M : ℚ) :
    ∀ rem n C lastLot, C = cumLoss p (n-1) → 1 ≤ n →
      (∀ m, m < n + rem → n ≤ m → -M < cumLoss p m) →
      lossLoop p M n rem C lastLot =
        (0, if rem = 0 then lastLot else lotSizeAt p (n + rem - 1)) := by
  intro rem
  induction rem with
  | zero =>
    intro n C lastLot _ _ _
    rfl
  | succ rem ih =>
    intro n C lastLot hC h1 hmin
    subst hC
    rw [lossLoop_succ, cumLoss_step p n h1]
    have hb : -M < cumLoss p n := hmin n (by omega) (le_refl n)
    rw [if_neg (not_le_of_lt hb)]
    have hlot : (computeTrade n (cumLoss p (n-1)) p).lotSize = lotSizeAt p n := rfl
    rw [hlot]
    have hstep := ih (n+1) (cumLoss p n) (lotSizeAt p n)
      (by simp) (by omega)
      (fun m hm hm2 => hmin m (by omega) (by omega))
    rw [hstep]
    by_cases h0 : rem = 0
    · subst h0
      rw [if_pos rfl, if_neg (by omega : ¬ (0:ℕ) + 1 = 0)]
      have : n + (0 + 1) - 1 = n := by omega
      rw [this]
    · rw [if_neg h0, if_neg (by omega : ¬ rem + 1 = 0)]
      have : n + 1 + rem - 1 = n + (rem + 1) - 1 := by omega
      rw [this]

/-- C1: for every trade index `n ≥ 1`, cumulative loss `C` and parameters
with positive net win rate, the computed trade satisfies
`winAmount + C = n * targetWinPerTrade`, with
`winAmount = netWinRate * lotSize = n * targetWinPerTrade - C`,
independently of the loss path that produced `C`. -/
theorem computeTrade_win_restores_target (n : ℕ) (C : ℚ) (p : StrategyParams)
    (hn : 1 ≤ n) (hw : 0 < netWinRate p) :
    (computeTrade n C p).winAmount + C = (n : ℚ) * p.targetWinPerTrade ∧
    (computeTrade n C p).winAmount = netWinRate p * (computeTrade n C p).lotSize ∧
    (computeTrade n C p).winAmount = (n : ℚ) * p.targetWinPerTrade - C := by
  have hw0 : netWinRate p ≠ 0 := ne_of_gt hw
  have hwin : (computeTrade n C p).winAmount =
      (n : ℚ) * p.targetWinPerTrade - C := by
    show netWinRate p * (((n : ℚ) * p.targetWinPerTrade - C) / netWinRate p) = _
    rw [mul_div_cancel₀ _ hw0]
  refine ⟨?_, rfl, hwin⟩
  rw [hwin]; ring

/-- C1 witness: trade 1 with no prior loss under the default parameters. -/
theorem computeTrade_win_restores_target_witness :
    (1 ≤ 1 ∧ 0 < netWinRate defaultParams) ∧
    (computeTrade 1 0 defaultParams).winAmount + 0 =
      ((1 : ℕ) : ℚ) * defaultParams.targetWinPerTrade :=
  ⟨⟨le_refl 1, by norm_num [netWinRate, defaultParams]⟩,
    (computeTrade_win_restores_target 1 0 defaultParams (le_refl 1)
      (by norm_num [netWinRate, defaultParams])).1⟩

/-- C9 counterexample: at trade 1 under the default parameters the loss
amount is exactly `-203/237 ≈ -0.85654`, which differs from the claimed
`-0.8571` by more than `1/2500 = 0.0004`, so the claim's value is wrong at
its stated 4-decimal precision. -/
theorem scenario1_loseAmount_not_claimed_value :
    (computeTrade 1 0 defaultParams).loseAmount = -203/237 ∧
    (-8571/10000 : ℚ) + 1/2500 < (computeTrade 1 0 defaultParams).loseAmount := by
  constructor
  · norm_num [computeTrade, netWinRate, netLossRate, defaultParams]
  · norm_num [computeTrade, netWinRate, netLossRate, defaultParams]

/-- C9 amended: trade 1 under the default parameters yields
`netWinRate = 118.5`, `lotSize = 2/237 ≈ 0.00844`, `winAmount = 1`,
`loseAmount = cumulativeLossIfLosing = -203/237 ≈ -0.8565` (not `-0.8571`),
each approximation tight to the stated number of decimals. -/
theorem scenario1_values :
    netWinRate defaultParams = 237/2 ∧
    (computeTrade 1 0 defaultParams).lotSize = 2/237 ∧
    (8435/1000000 : ℚ) < (computeTrade 1 0 defaultParams).lotSize ∧
    (computeTrade 1 0 defaultParams).lotSize < (8445/1000000 : ℚ) ∧
    (computeTrade 1 0 defaultParams).winAmount = 1 ∧
    (computeTrade 1 0 defaultParams).loseAmount = -203/237 ∧
    (-8565/10000 : ℚ) - 1/20000 < (computeTrade 1 0 defaultParams).loseAmount ∧
    (computeTrade 1 0 defaultParams).loseAmount < (-8565/10000 : ℚ) + 1/20000 ∧
    (computeTrade 1 0 defaultParams).cumulativeLossIfLosing = -203/237 := by
  refine ⟨?_, ?_, ?_, ?_, ?_, ?_, ?_, ?_, ?_⟩ <;>
    norm_num [computeTrade, netWinRate, netLossRate, defaultParams]

/-- Parameters with commission 0, profit 0.01, loss 0.01, target 1 (all
inside the ranges the sidebar controls allow); they make the all-losing
accumulator follow the integer recurrence `C' = 2*C - n`. -/
def simpleParams : StrategyParams :=
  { commissionPerLot := 0
    profitPer0_01Lot := 1/100
    lossPer0_01Lot := 1/100
    targetWinPerTrade := 1 }

/-- Closed form of the all-losing accumulator under `simpleParams`. -/
lemma cumLoss_simpleParams (n : ℕ) :
    cumLoss simpleParams n = -(2^(n+1) - (n : ℚ) - 2) := by
  induction n with
  | zero => norm_num [cumLoss]
  | succ k ih =>
    rw [cumLoss]
    simp only [computeTrade, netWinRate, netLossRate]
    rw [ih]
    simp only [simpleParams]
    push_cast
    ring

/-- Parameters with target win 0 (allowed by the sidebar): every lot size is
0, so the accumulator never moves and no plan ever breaches. -/
def zeroTargetParams : StrategyParams :=
  { commissionPerLot := 3/2
    profitPer0_01Lot := 6/5
    lossPer0_01Lot := 1
    targetWinPerTrade := 0 }

/-- Under `zeroTargetParams` the all-losing accumulator stays at 0. -/
lemma cumLoss_zeroTargetParams (n : ℕ) :
    cumLoss zeroTargetParams n = 0 := by
  induction n with
  | zero => norm_num [cumLoss]
  | succ k ih =>
    rw [cumLoss]
    simp only [computeTrade, netWinRate, netLossRate]
    rw [ih]
    simp only [zeroTargetParams]
    norm_num

/-- C2: if the loss-support simulation first reaches
`cumulativeLoss ≤ -maxOverallLoss` at trade `n` (within the simulated
window), the loop stops there, `losses_supported` is set to `n - 1`, and the
reported adjusted value is `max (n - 2) 0`. -/
theorem lossSupport_breach_counts (p : StrategyParams) (plan : AccountPlan)
    (n : ℕ) (hf : FirstBreachAt p plan.maxOverallLoss n) (hn99 : n ≤ 99) :
    (lossSupportForPlan p plan).lossesSupported = (n : ℤ) - 1 ∧
    (lossSupportForPlan p plan).adjustedLossesSupported = max ((n : ℤ) - 2) 0 := by
  obtain ⟨h1, hbr, hmin⟩ := hf
  have h := lossLoop_firstBreach p plan.maxOverallLoss 99 1 0 0 n rfl
    (le_refl 1) h1 (by omega) hbr (fun m hm hm2 => hmin m hm hm2)
  have hL : (lossSupportForPlan p plan).lossesSupported = (n : ℤ) - 1 := by
    simp [lossSupportForPlan, h]
  have hA : (lossSupportForPlan p plan).adjustedLossesSupported =
      max ((n : ℤ) - 1 - 1) 0 := by
    simp [lossSupportForPlan, h]
  refine ⟨hL, ?_⟩
  rw [hA]
  have h2 : (n : ℤ) - 1 - 1 = (n : ℤ) - 2 := by ring
  rw [h2]

/-- C2 witness: under `simpleParams` the plan with loss budget 5 first
breaches at trade 3 (cumulative losses -1, -4, -11), so the loop reports
`losses_supported = 2` and adjusted value 1. -/
theorem lossSupport_breach_counts_witness :
    FirstBreachAt simpleParams ((⟨1000, 5⟩ : AccountPlan)).maxOverallLoss 3 ∧
    (lossSupportForPlan simpleParams ⟨1000, 5⟩).lossesSupported = 2 ∧
    (lossSupportForPlan simpleParams ⟨1000, 5⟩).adjustedLossesSupported = 1 := by
  have hf : FirstBreachAt simpleParams ((⟨1000, 5⟩ : AccountPlan)).maxOverallLoss 3 := by
    refine ⟨by norm_num, by rw [cumLoss_simpleParams]; norm_num, ?_⟩
    intro m hm h1
    interval_cases m <;> rw [cumLoss_simpleParams] <;> norm_num
  have h := lossSupport_breach_counts simpleParams ⟨1000, 5⟩ 3 hf (by norm_num)
  refine ⟨hf, ?_, ?_⟩
  · rw [h.1]; norm_num
  · rw [h.2]; norm_num

/-- C5: a plan whose simulation never reaches `-maxOverallLoss` within the
simulated trades reports `losses_supported = 0` (the variable is only
assigned in the breach branch) and hence adjusted value 0. -/
theorem lossSupport_noBreach_zero (p : StrategyParams) (plan : AccountPlan)
    (h : ∀ m, m < 100 → 1 ≤ m → -plan.maxOverallLoss < cumLoss p m) :
    (lossSupportForPlan p plan).lossesSupported = 0 ∧
    (lossSupportForPlan p plan).adjustedLossesSupported = 0 := by
  have hrun := lossLoop_noBreach p plan.maxOverallLoss 99 1 0 0 rfl
    (le_refl 1) (fun m hm hm2 => h m (by omega) hm2)
  constructor
  · simp [lossSupportForPlan, hrun]
  · simp [lossSupportForPlan, hrun]

/-- C5 witness: with target win 0 the accumulator never moves, the plan
(6000, 600) never breaches, and the report is 0 supported losses. -/
theorem lossSupport_noBreach_zero_witness :
    (∀ m, m < 100 → 1 ≤ m →
      -((⟨6000, 600⟩ : AccountPlan)).maxOverallLoss < cumLoss zeroTargetParams m) ∧
    (lossSupportForPlan zeroTargetParams ⟨6000, 600⟩).lossesSupported = 0 ∧
    (lossSupportForPlan zeroTargetParams ⟨6000, 600⟩).adjustedLossesSupported = 0 := by
  have hnb : ∀ m, m < 100 → 1 ≤ m →
      -((⟨6000, 600⟩ : AccountPlan)).maxOverallLoss < cumLoss zeroTargetParams m := by
    intro m _ _
    rw [cumLoss_zeroTargetParams]
    norm_num
  exact ⟨hnb, lossSupport_noBreach_zero zeroTargetParams ⟨6000, 600⟩ hnb⟩

/-- C6: the reported `last_trade_lot_size` is the lot size of the most
recent simulated trade that did not breach: on a first breach at trade
`n ≤ 99` it is the lot of trade `n - 1` (or the initial 0 when the very
first trade breaches), and with no breach it is the lot of trade 99. -/
theorem lossSupport_lastLot (p : StrategyParams) (plan : AccountPlan) :
    (∀ n, FirstBreachAt p plan.maxOverallLoss n → n ≤ 99 →
      (lossSupportForPlan p plan).lastTradeLotSize =
        if n = 1 then 0 else lotSizeAt p (n-1)) ∧
    ((∀ m, m < 100 → 1 ≤ m → -plan.maxOverallLoss < cumLoss p m) →
      (lossSupportForPlan p plan).lastTradeLotSize = lotSizeAt p 99) := by
  constructor
  · intro n hf hn99
    obtain ⟨h1, hbr, hmin⟩ := hf
    have h := lossLoop_firstBreach p plan.maxOverallLoss 99 1 0 0 n rfl
      (le_refl 1) h1 (by omega) hbr (fun m hm hm2 => hmin m hm hm2)
    simp only [lossSupportForPlan, h]
  · intro hnb
    have hrun := lossLoop_noBreach p plan.maxOverallLoss 99 1 0 0 rfl
      (le_refl 1) (fun m hm hm2 => hnb m (by omega) hm2)
    simp only [lossSupportForPlan, hrun]
    norm_num

/-- C6 witness: under the default parameters a loss budget of 1 is first
breached at trade 2, and the reported last lot size is the lot of trade 1. -/
theorem lossSupport_lastLot_witness :
    FirstBreachAt defaultParams ((⟨6000, 1⟩ : AccountPlan)).maxOverallLoss 2 ∧
    (lossSupportForPlan defaultParams ⟨6000, 1⟩).lastTradeLotSize =
      lotSizeAt defaultParams 1 := by
  have hf : FirstBreachAt defaultParams ((⟨6000, 1⟩ : AccountPlan)).maxOverallLoss 2 := by
    refine ⟨by norm_num, ?_, ?_⟩
    · norm_num [cumLoss, computeTrade, netWinRate, netLossRate, defaultParams]
    · intro m hm h1
      interval_cases m
      norm_num [cumLoss, computeTrade, netWinRate, netLossRate, defaultParams]
  have h := (lossSupport_lastLot defaultParams ⟨6000, 1⟩).1 2 hf (by norm_num)
  rw [if_neg (by norm_num : ¬ (2:ℕ) = 1)] at h
  exact ⟨hf, h⟩

/-- Parameters with commission 200 (the commission control has no upper
bound), making `netWinRate = 1.2 * 100 - 200 = -80 < 0`. -/
def badParams : StrategyParams :=
  { commissionPerLot := 200
    profitPer0_01Lot := 6/5
    lossPer0_01Lot := 1
    targetWinPerTrade := 1 }

/-- C3: the code performs no validation of `netWinRate`: with
`netWinRate = -80 < 0` the progression simulator still produces its table,
whose first row has the sign-inverted lot size `-1/80`, instead of raising a
configuration error before simulating. -/
theorem negative_netWinRate_not_rejected :
    netWinRate badParams < 0 ∧
    simulateProgression 1 badParams = [computeTrade 1 0 badParams] ∧
    (computeTrade 1 0 badParams).lotSize = -1/80 ∧
    (computeTrade 1 0 badParams).lotSize < 0 := by
  refine ⟨?_, ?_, ?_, ?_⟩
  · norm_num [netWinRate, badParams]
  · simp [simulateProgression, progGo]
  · norm_num [computeTrade, netWinRate, badParams]
  · norm_num [computeTrade, netWinRate, badParams]

/-- C4: the loss-support loop runs `for n in range(1, 100)`, i.e. trades
1..99 only, although its own comment says it simulates a maximum of 100
trades.  Under `simpleParams`, a plan whose loss budget is first breached
exactly at trade 100 (budget `2^100 - 100`) therefore completes the loop
without detecting the breach and reports `losses_supported = 0` instead of
`99`. -/
theorem lossLoop_stops_at_trade_99 :
    -(2^100 - 100 : ℚ) < cumLoss simpleParams 99 ∧
    cumLoss simpleParams 100 ≤ -(2^100 - 100 : ℚ) ∧
    (lossSupportForPlan simpleParams ⟨1000000, 2^100 - 100⟩).lossesSupported = 0 := by
  refine ⟨?_, ?_, ?_⟩
  · rw [cumLoss_simpleParams]; norm_num
  · rw [cumLoss_simpleParams]; norm_num
  · have hnb : ∀ m, m < 1 + 99 → 1 ≤ m →
        -((⟨1000000, 2^100 - 100⟩ : AccountPlan)).maxOverallLoss <
          cumLoss simpleParams m := by
      intro m hm h1
      rw [cumLoss_simpleParams]
      show -((2:ℚ)^100 - 100) < -(2^(m+1) - (m:ℚ) - 2)
      rcases Nat.lt_or_ge m 99 with h99 | h99
      · have hp : (2:ℚ)^(m+1) ≤ 2^99 := by
          apply pow_le_pow_right₀ (by norm_num : (1:ℚ) ≤ 2) (by omega)
        have hm1 : (1:ℚ) ≤ (m:ℚ) := by exact_mod_cast h1
        have h2 : (2:ℚ)^99 + 100 < 2^100 := by norm_num
        linarith
      · have hm99 : m = 99 := by omega
        subst hm99
        norm_num
    have hrun := lossLoop_noBreach simpleParams
      ((⟨1000000, 2^100 - 100⟩ : AccountPlan)).maxOverallLoss 99 1 0 0 rfl
      (le_refl 1) (fun m hm hm2 => hnb m hm hm2)
    simp [lossSupportForPlan, hrun]

/-- Positivity of the per-lot loss rate under the data-model ranges. -/
lemma netLossRate_pos (p : StrategyParams) (hl : 0 < p.lossPer0_01Lot)
    (hc : 0 ≤ p.commissionPerLot) : 0 < netLossRate p := by
  have h100 : 0 < p.lossPer0_01Lot * 100 := by positivity
  unfold netLossRate
  linarith

/-- Lot sizes are nonnegative whenever the incoming cumulative loss is
nonpositive, the net win rate is positive and the target is nonnegative. -/
lemma computeTrade_lot_nonneg (p : StrategyParams) (hw : 0 < netWinRate p)
    (ht : 0 ≤ p.targetWinPerTrade) (n : ℕ) (C : ℚ) (hC : C ≤ 0) :
    0 ≤ (computeTrade n C p).lotSize := by
  show 0 ≤ ((n : ℚ) * p.targetWinPerTrade - C) / netWinRate p
  apply div_nonneg _ hw.le
  have h1 : 0 ≤ (n : ℚ) * p.targetWinPerTrade :=
    mul_nonneg (Nat.cast_nonneg n) ht
  linarith

/-- Losing outcomes are nonpositive under the same conditions. -/
lemma computeTrade_lose_nonpos (p : StrategyParams) (hw : 0 < netWinRate p)
    (ht : 0 ≤ p.targetWinPerTrade) (hr : 0 ≤ netLossRate p)
    (n : ℕ) (C : ℚ) (hC : C ≤ 0) : (computeTrade n C p).loseAmount ≤ 0 := by
  have hL := computeTrade_lot_nonneg p hw ht n C hC
  have he : (computeTrade n C p).loseAmount =
      -(netLossRate p) * (computeTrade n C p).lotSize := rfl
  rw [he, neg_mul]
  exact neg_nonpos.mpr (mul_nonneg hr hL)

/-- One losing trade keeps the accumulator nonpositive. -/
lemma computeTrade_cum_nonpos (p : StrategyParams) (hw : 0 < netWinRate p)
    (ht : 0 ≤ p.targetWinPerTrade) (hr : 0 ≤ netLossRate p)
    (n : ℕ) (C : ℚ) (hC : C ≤ 0) :
    (computeTrade n C p).cumulativeLossIfLosing ≤ 0 := by
  have hlose := computeTrade_lose_nonpos p hw ht hr n C hC
  have he : (computeTrade n C p).cumulativeLossIfLosing =
      C + (computeTrade n C p).loseAmount := rfl
  rw [he]
  linarith

/-- Invariant: the all-losing accumulator never becomes positive. -/
lemma cumLoss_nonpos (p : StrategyParams) (hw : 0 < netWinRate p)
    (ht : 0 ≤ p.targetWinPerTrade) (hr : 0 ≤ netLossRate p) (n : ℕ) :
    cumLoss p n ≤ 0 := by
  induction n with
  | zero => exact le_of_eq rfl
  | succ k ih =>
    rw [cumLoss]
    exact computeTrade_cum_nonpos p hw ht hr (k+1) (cumLoss p k) ih

/-- Every record the progression loop emits from a nonpositive accumulator
has nonnegative lot size, nonpositive losing outcome and nonpositive
hypothetical cumulative loss. -/
lemma progGo_mem_props (p : StrategyParams) (hw : 0 < netWinRate p)
    (ht : 0 ≤ p.targetWinPerTrade) (hr : 0 ≤ netLossRate p) :
    ∀ rem n C, C ≤ 0 → ∀ tr ∈ progGo p n rem C,
      0 ≤ tr.lotSize ∧ tr.loseAmount ≤ 0 ∧ tr.cumulativeLossIfLosing ≤ 0 := by
  intro rem
  induction rem with
  | zero =>
    intro n C hC tr htr
    simp [progGo] at htr
  | succ rem ih =>
    intro n C hC tr htr
    simp only [progGo] at htr
    rcases List.mem_cons.mp htr with h | h
    · subst h
      exact ⟨computeTrade_lot_nonneg p hw ht n C hC,
        computeTrade_lose_nonpos p hw ht hr n C hC,
        computeTrade_cum_nonpos p hw ht hr n C hC⟩
    · exact ih (n+1) _ (computeTrade_cum_nonpos p hw ht hr n C hC) tr h

/-- C10: under a positive net win rate, positive per-0.01-lot loss,
nonnegative commission and nonnegative target, both simulations keep the
cumulative loss nonpositive at every iteration, so every lot size is
nonnegative and every losing outcome nonpositive (the loss-support loop
visits exactly the accumulator values `cumLoss p n` and the lots
`lotSizeAt p n`). -/
theorem simulations_keep_loss_nonpositive (p : StrategyParams)
    (hw : 0 < netWinRate p) (hl : 0 < p.lossPer0_01Lot)
    (hc : 0 ≤ p.commissionPerLot) (ht : 0 ≤ p.targetWinPerTrade) :
    (∀ n, cumLoss p n ≤ 0 ∧ 0 ≤ lotSizeAt p n ∧
      (computeTrade n (cumLoss p (n-1)) p).loseAmount ≤ 0) ∧
    (∀ k, ∀ tr ∈ simulateProgression k p, 0 ≤ tr.lotSize ∧
      tr.loseAmount ≤ 0 ∧ tr.cumulativeLossIfLosing ≤ 0) := by
  have hr : 0 ≤ netLossRate p := (netLossRate_pos p hl hc).le
  constructor
  · intro n
    refine ⟨cumLoss_nonpos p hw ht hr n, ?_, ?_⟩
    · show 0 ≤ (computeTrade n (cumLoss p (n-1)) p).lotSize
      exact computeTrade_lot_nonneg p hw ht n (cumLoss p (n-1))
        (cumLoss_nonpos p hw ht hr (n-1))
    · exact computeTrade_lose_nonpos p hw ht hr n (cumLoss p (n-1))
        (cumLoss_nonpos p hw ht hr (n-1))
  · intro k tr htr
    exact progGo_mem_props p hw ht hr k 1 0 (le_refl 0) tr htr

/-- C10 witness: the invariant instantiated at the default parameters,
evaluated at trade 2 of the all-losing path and at the records of a
2-trade progression. -/
theorem simulations_keep_loss_nonpositive_witness :
    (0 < netWinRate defaultParams ∧ 0 < defaultParams.lossPer0_01Lot ∧
      0 ≤ defaultParams.commissionPerLot ∧ 0 ≤ defaultParams.targetWinPerTrade) ∧
    (cumLoss defaultParams 2 ≤ 0 ∧ 0 ≤ lotSizeAt defaultParams 2 ∧
      (computeTrade 2 (cumLoss defaultParams 1) defaultParams).loseAmount ≤ 0) ∧
    (∀ tr ∈ simulateProgression 2 defaultParams,
      0 ≤ tr.lotSize ∧ tr.loseAmount ≤ 0 ∧ tr.cumulativeLossIfLosing ≤ 0) := by
  have hw : 0 < netWinRate defaultParams := by norm_num [netWinRate, defaultParams]
  have hl : 0 < defaultParams.lossPer0_01Lot := by norm_num [defaultParams]
  have hc : 0 ≤ defaultParams.commissionPerLot := by norm_num [defaultParams]
  have ht : 0 ≤ defaultParams.targetWinPerTrade := by norm_num [defaultParams]
  have h := simulations_keep_loss_nonpositive defaultParams hw hl hc ht
  exact ⟨⟨hw, hl, hc, ht⟩, h.1 2, h.2 2⟩

/-- Consecutive lot sizes: one more loss only grows the required lot, since
the next recovery target adds the fresh loss plus one more target win. -/
lemma computeTrade_lot_le_next (p : StrategyParams) (hw : 0 < netWinRate p)
    (hr : 0 ≤ netLossRate p) (ht : 0 ≤ p.targetWinPerTrade)
    (n : ℕ) (C : ℚ) (hC : C ≤ 0) :
    (computeTrade n C p).lotSize ≤
      (computeTrade (n+1) (computeTrade n C p).cumulativeLossIfLosing p).lotSize := by
  have hw0 : netWinRate p ≠ 0 := ne_of_gt hw
  have hL : 0 ≤ (computeTrade n C p).lotSize :=
    computeTrade_lot_nonneg p hw ht n C hC
  have hdiff : (computeTrade (n+1) (computeTrade n C p).cumulativeLossIfLosing p).lotSize
      - (computeTrade n C p).lotSize =
      (p.targetWinPerTrade + netLossRate p * (computeTrade n C p).lotSize) /
        netWinRate p := by
    simp only [computeTrade]
    push_cast
    field_simp
    ring
  have hnum : 0 ≤ p.targetWinPerTrade + netLossRate p * (computeTrade n C p).lotSize :=
    add_nonneg ht (mul_nonneg hr hL)
  have hpos : 0 ≤ (computeTrade (n+1) (computeTrade n C p).cumulativeLossIfLosing p).lotSize
      - (computeTrade n C p).lotSize := by
    rw [hdiff]
    exact div_nonneg hnum hw.le
  linarith

/-- Lot sizes along any suffix of the progression form a chain of
nondecreasing values, below any lower bound of the first lot. -/
lemma progGo_lots_chain (p : StrategyParams) (hw : 0 < netWinRate p)
    (hr : 0 ≤ netLossRate p) (ht : 0 ≤ p.targetWinPerTrade) :
    ∀ rem n C a, C ≤ 0 → a ≤ (computeTrade n C p).lotSize →
      List.Chain (fun x y : ℚ => x ≤ y) a
        ((progGo p n rem C).map TradeRecord.lotSize) := by
  intro rem
  induction rem with
  | zero =>
    intro n C a _ _
    simp only [progGo, List.map_nil]
    exact List.Chain.nil
  | succ rem ih =>
    intro n C a hC ha
    simp only [progGo, List.map_cons]
    refine List.Chain.cons ha ?_
    exact ih (n+1) (computeTrade n C p).cumulativeLossIfLosing
      (computeTrade n C p).lotSize
      (computeTrade_cum_nonpos p hw ht hr n C hC)
      (computeTrade_lot_le_next p hw hr ht n C hC)

/-- C7: under the default parameters the progression table's lot sizes are
nondecreasing in the trade index, for any number of trades. -/
theorem progression_lotSizes_nondecreasing (numTrades : ℕ) :
    List.Chain' (fun a b : TradeRecord => a.lotSize ≤ b.lotSize)
      (simulateProgression numTrades defaultParams) := by
  have hw : 0 < netWinRate defaultParams := by norm_num [netWinRate, defaultParams]
  have hr : 0 ≤ netLossRate defaultParams := by norm_num [netLossRate, defaultParams]
  have ht : 0 ≤ defaultParams.targetWinPerTrade := by norm_num [defaultParams]
  have h := progGo_lots_chain defaultParams hw hr ht numTrades 1 0
    ((computeTrade 1 0 defaultParams).lotSize) (le_refl 0) (le_refl _)
  have h2 : List.Chain' (fun x y : ℚ => x ≤ y)
      ((progGo defaultParams 1 numTrades 0).map TradeRecord.lotSize) := by
    cases hmap : (progGo defaultParams 1 numTrades 0).map TradeRecord.lotSize with
    | nil => exact List.chain'_nil
    | cons b l =>
      rw [hmap] at h
      exact (List.chain_cons.mp h).2
  have h3 := (List.chain'_map TradeRecord.lotSize).mp h2
  exact h3

/-- C8 counterexample: with `simpleParams` fixed, the budget 5 is breached
at trade 3 (adjusted support 1), while the much larger budget `2^101` is
never breached within the 99 simulated trades, so its report falls back to
the initial `losses_supported = 0` and the adjusted value drops to 0:
a larger `maxOverallLoss` with a smaller reported support. -/
theorem lossSupport_not_monotone_in_budget :
    (5 : ℚ) ≤ 2^101 ∧
    (lossSupportForPlan simpleParams ⟨1000, 5⟩).adjustedLossesSupported = 1 ∧
    (lossSupportForPlan simpleParams ⟨1000, 2^101⟩).adjustedLossesSupported = 0 := by
  refine ⟨by norm_num, ?_, ?_⟩
  · have hmin : ∀ m, m < 3 → 1 ≤ m → -(5:ℚ) < cumLoss simpleParams m := by
      intro m hm h1
      interval_cases m <;> rw [cumLoss_simpleParams] <;> norm_num
    have h := lossLoop_firstBreach simpleParams (5:ℚ) 99 1 0 0 3 rfl
      (le_refl 1) (by norm_num) (by norm_num)
      (by rw [cumLoss_simpleParams]; norm_num) hmin
    simp [lossSupportForPlan, h]
  · have hnb : ∀ m, m < 1 + 99 → 1 ≤ m → -(2^101 : ℚ) < cumLoss simpleParams m := by
      intro m hm h1
      rw [cumLoss_simpleParams]
      have hp : (2:ℚ)^(m+1) ≤ 2^100 :=
        pow_le_pow_right₀ (by norm_num : (1:ℚ) ≤ 2) (by omega)
      have hm0 : (0:ℚ) ≤ (m:ℚ) := Nat.cast_nonneg m
      have hbig : (2:ℚ)^100 < 2^101 := by norm_num
      linarith
    have hrun := lossLoop_noBreach simpleParams (2^101 : ℚ) 99 1 0 0 rfl
      (le_refl 1) (fun m hm hm2 => hnb m hm hm2)
    simp [lossSupportForPlan, hrun]

/-- C8 amended: the loss-support report is monotone in `maxOverallLoss`
provided the larger budget is itself breached within the 99 simulated
trades (without that proviso the claim fails, see the counterexample: a
budget the simulation never breaches reports 0). -/
theorem lossSupport_monotone_in_budget_of_breach (p : StrategyParams)
    (A1 A2 M1 M2 : ℚ) (h12 : M1 ≤ M2)
    (hbr : ∃ k, 1 ≤ k ∧ k ≤ 99 ∧ cumLoss p k ≤ -M2) :
    (lossSupportForPlan p ⟨A1, M1⟩).adjustedLossesSupported ≤
      (lossSupportForPlan p ⟨A2, M2⟩).adjustedLossesSupported := by
  obtain ⟨k0, hk1, hk99, hkbr⟩ := hbr
  have hex2 : ∃ k, 1 ≤ k ∧ cumLoss p k ≤ -M2 := ⟨k0, hk1, hkbr⟩
  have hex1 : ∃ k, 1 ≤ k ∧ cumLoss p k ≤ -M1 :=
    ⟨k0, hk1, le_trans hkbr (by linarith)⟩
  have hn2spec := Nat.find_spec hex2
  have hn1spec := Nat.find_spec hex1
  have hn2le : Nat.find hex2 ≤ k0 := Nat.find_min' hex2 ⟨hk1, hkbr⟩
  have hn1le2 : Nat.find hex1 ≤ Nat.find hex2 :=
    Nat.find_min' hex1 ⟨hn2spec.1, le_trans hn2spec.2 (by linarith)⟩
  have hf1min : ∀ m, m < Nat.find hex1 → 1 ≤ m → -M1 < cumLoss p m := by
    intro m hm h1
    by_contra hle
    push_neg at hle
    exact absurd ⟨h1, hle⟩ (Nat.find_min hex1 hm)
  have hf2min : ∀ m, m < Nat.find hex2 → 1 ≤ m → -M2 < cumLoss p m := by
    intro m hm h1
    by_contra hle
    push_neg at hle
    exact absurd ⟨h1, hle⟩ (Nat.find_min hex2 hm)
  have h1run := lossLoop_firstBreach p M1 99 1 0 0 (Nat.find hex1) rfl
    (le_refl 1) hn1spec.1 (by omega) hn1spec.2
    (fun m hm hm2 => hf1min m hm hm2)
  have h2run := lossLoop_firstBreach p M2 99 1 0 0 (Nat.find hex2) rfl
    (le_refl 1) hn2spec.1 (by omega) hn2spec.2
    (fun m hm hm2 => hf2min m hm hm2)
  have hA1 : (lossSupportForPlan p ⟨A1, M1⟩).adjustedLossesSupported =
      max ((Nat.find hex1 : ℤ) - 1 - 1) 0 := by
    simp [lossSupportForPlan, h1run]
  have hA2 : (lossSupportForPlan p ⟨A2, M2⟩).adjustedLossesSupported =
      max ((Nat.find hex2 : ℤ) - 1 - 1) 0 := by
    simp [lossSupportForPlan, h2run]
  rw [hA1, hA2]
  have hle : (Nat.find hex1 : ℤ) ≤ (Nat.find hex2 : ℤ) := by exact_mod_cast hn1le2
  exact max_le_max (by linarith) (le_refl 0)

/-- C8 amended witness: under `simpleParams`, budgets 2 and 5 are both
breached within the window (at trades 2 and 3), and the adjusted supports
0 and 1 are indeed ordered. -/
theorem lossSupport_monotone_in_budget_of_breach_witness :
    ((2:ℚ) ≤ 5 ∧ 1 ≤ 3 ∧ 3 ≤ 99 ∧ cumLoss simpleParams 3 ≤ -(5:ℚ)) ∧
    (lossSupportForPlan simpleParams ⟨1000, 2⟩).adjustedLossesSupported ≤
      (lossSupportForPlan simpleParams ⟨1000, 5⟩).adjustedLossesSupported := by
  have hcum : cumLoss simpleParams 3 ≤ -(5:ℚ) := by
    rw [cumLoss_simpleParams]; norm_num
  exact ⟨⟨by norm_num, by norm_num, by norm_num, hcum⟩,
    lossSupport_monotone_in_budget_of_breach simpleParams 1000 1000 2 5
      (by norm_num) ⟨3, by norm_num, by norm_num, hcum⟩⟩
